import Mathlib

/-!
Verification of the parsing utilities in `util/parse.py`.

The module under analysis has four operations:
  * `parse_package_to_repos_file` : CSV (header `package`, `all_repos`) to a
    dict from package name to list of repository names;
  * `parse_package_details` : directory of `*.json` files to a lazy generator
    of (package name, parsed JSON) pairs;
  * `invert_mapping` : dict package-to-repos to dict repo-to-set-of-packages;
  * `parse_repo_to_package_file` : headerless CSV to dict repo-to-set-of-packages.

The embedding models:
  * Python `dict` as an association list in insertion order (updates keep the
    original position, fresh keys append at the end);
  * Python `set` of strings as `Finset String`;
  * Python exceptions as `Except` with an explicit error type;
  * the `csv` module's excel dialect reader, restricted to inputs without
    newline characters inside quoted fields (none of the analysed inputs has
    them): each input line becomes one row, a blank line becomes the row `[]`,
    one trailing newline of the text terminates the last line;
  * `glob.iglob(dir + "/*.json")` as a filter on the directory entry names:
    the name must end in `.json` and, since the pattern `*` of `glob` does not
    match a leading dot, the name must not start with `.`;
  * `os.path.splitext` (restricted to plain file names, no path separators):
    split at the last dot unless every character before that dot is a dot;
  * `json.load` as an oracle carried by the directory model: every directory
    entry carries the outcome (`Except`) of JSON-parsing its contents, so the
    grammar of JSON text is not re-modelled; JSON values themselves are the
    inductive `ParsedJSON` (floating point numbers are not needed by any
    analysed claim and are left out of the value model);
  * the generator of `parse_package_details` by three views: the collected
    result of full consumption, a step-indexed partial consumption, and an
    event trace recording file opens, closes, yields and raised errors.
-/

set_option autoImplicit false

namespace ParseUtil

/-- JSON values as produced by `json.load`: objects, arrays, strings,
integers, booleans and null. -/
inductive ParsedJSON where
  | obj : List (String × ParsedJSON) → ParsedJSON
  | arr : List ParsedJSON → ParsedJSON
  | str : String → ParsedJSON
  | int : Int → ParsedJSON
  | bool : Bool → ParsedJSON
  | null : ParsedJSON

/-- Errors raised by the Python code paths that the claims exercise.
`keyError k` models `row[k]` on a `DictReader` row whose field names do not
include `k`. `indexError` models `row[i]` beyond the end of a list.
`restvalNone` marks the case where `DictReader` pads a row shorter than the
header with the rest value `None`: in Python the lookup itself succeeds and
returns `None`, and the subsequent `None.split(',')` raises `AttributeError`;
the embedding signals the situation at the lookup (no analysed claim reaches
this case). -/
inductive PyErr where
  | keyError : String → PyErr
  | indexError : PyErr
  | restvalNone : PyErr
deriving DecidableEq

/-- Split a character list at every occurrence of `sep`, keeping empty
pieces; always returns at least one piece. -/
def splitOnChar (sep : Char) (cs : List Char) : List (List Char) :=
  cs.foldr
    (fun c acc =>
      match acc with
      | [] => [[c]]
      | a :: as => if c = sep then [] :: a :: as else (c :: a) :: as)
    [[]]

/-- Python `s.split(',')`: `""` gives `[""]`, separators are not collapsed. -/
def pySplit (s : String) : List String :=
  (splitOnChar ',' s.data).map String.mk

/-- States of the CSV field scanner (excel dialect, non-strict). -/
inductive CsvState where
  | startField
  | inField
  | inQuoted
  | quoteInQuoted

/-- Scan one CSV line into fields. A quote is special only at the start of a
field; inside a quoted field `""` is a literal quote; after a closing quote
further characters are appended to the field (non-strict mode). -/
def csvFieldsAux : List Char → List Char → CsvState → List String
  | [], acc, _ => [String.mk acc.reverse]
  | c :: rest, acc, .startField =>
    if c = '"' then csvFieldsAux rest acc .inQuoted
    else if c = ',' then String.mk acc.reverse :: csvFieldsAux rest [] .startField
    else csvFieldsAux rest (c :: acc) .inField
  | c :: rest, acc, .inField =>
    if c = ',' then String.mk acc.reverse :: csvFieldsAux rest [] .startField
    else csvFieldsAux rest (c :: acc) .inField
  | c :: rest, acc, .inQuoted =>
    if c = '"' then csvFieldsAux rest acc .quoteInQuoted
    else csvFieldsAux rest (c :: acc) .inQuoted
  | c :: rest, acc, .quoteInQuoted =>
    if c = '"' then csvFieldsAux rest ('"' :: acc) .inQuoted
    else if c = ',' then String.mk acc.reverse :: csvFieldsAux rest [] .startField
    else csvFieldsAux rest (c :: acc) .inField

/-- One line of CSV input as `csv.reader` sees it: a blank line yields the
empty row `[]`, any other line is scanned into its fields. -/
def csvParseLine (s : String) : List String :=
  match s.data with
  | [] => []
  | _ => csvFieldsAux s.data [] .startField

/-- The lines of a text as file iteration yields them: cut at newline
characters, a single trailing newline ends the last line rather than opening
an empty one. -/
def csvLines (text : String) : List String :=
  let ls := (splitOnChar '\n' text.data).map String.mk
  if ls.getLast? = some "" then ls.dropLast else ls

/-- The rows `csv.reader` produces from a text: each line becomes one row. -/
def csvReader (text : String) : List (List String) :=
  (csvLines text).map csvParseLine

/-- First-match lookup in a Python dict modelled as an association list. -/
def pyFind {β : Type} : List (String × β) → String → Option β
  | [], _ => none
  | (k', v) :: rest, k => if k' = k then some v else pyFind rest k

/-- Python `d[k] = v`: overwrite in place when the key exists, append
otherwise. -/
def pySet {β : Type} : List (String × β) → String → β → List (String × β)
  | [], k, v => [(k, v)]
  | (k', v') :: rest, k, v =>
    if k' = k then (k', v) :: rest else (k', v') :: pySet rest k v

/-- Python `d.setdefault(k, set()).add(x)`: insert `x` into the set stored at
`k`, creating a singleton entry at the end when `k` is absent. -/
def pyAddToSet : List (String × Finset String) → String → String → List (String × Finset String)
  | [], k, x => [(k, {x})]
  | (k', s) :: rest, k, x =>
    if k' = k then (k', insert x s) :: rest else (k', s) :: pyAddToSet rest k x

/-- Index of the last occurrence of `a` in `l`. Used because `dict(zip(h, r))`
binds a field name occurring twice in the header to the value of its last
occurrence. -/
def lastIdxOf : List String → String → Option Nat
  | [], _ => none
  | x :: xs, a =>
    match lastIdxOf xs a with
    | some i => some (i + 1)
    | none => if x = a then some 0 else none

/-- `row[name]` on a `csv.DictReader` row: `KeyError` when the header has no
column `name`; the field at the column's position otherwise; `restvalNone`
when the row is too short for that position (see `PyErr.restvalNone`).
A row longer than the header puts its extra fields under the rest key `None`,
so a plain column lookup never sees them. -/
def getField (header row : List String) (name : String) : Except PyErr String :=
  match lastIdxOf header name with
  | none => .error (.keyError name)
  | some i =>
    match row[i]? with
    | some v => .ok v
    | none => .error .restvalNone

/-- `parse_package_to_repos_file`: read the CSV with `DictReader` (first row
is the header, blank rows are skipped) and build
`{row['package']: row['all_repos'].split(',') for row in ...}`.
The dict comprehension evaluates the key before the value, so a missing
`package` column is reported first. -/
def parse_package_to_repos_file (input_file : String) :
    Except PyErr (List (String × List String)) :=
  match csvReader input_file with
  | [] => .ok []
  | header :: rows =>
    (rows.filter (fun r => r ≠ [])).foldlM
      (fun d row => do
        let pkg ← getField header row "package"
        let repos ← getField header row "all_repos"
        pure (pySet d pkg (pySplit repos)))
      []

/-- `invert_mapping`: for every package and every repository in its list,
insert the package into the set the result associates with the repository. -/
def invert_mapping (packages : List (String × List String)) :
    List (String × Finset String) :=
  packages.foldl
    (fun result entry =>
      entry.2.foldl (fun result repo => pyAddToSet result repo entry.1) result)
    []

/-- `parse_repo_to_package_file`: for every CSV row,
`result.setdefault(row[1], set()).add(row[0])`; `row[1]` is evaluated first,
so a row with fewer than two fields raises `IndexError` there. -/
def parse_repo_to_package_file (input_file : String) :
    Except PyErr (List (String × Finset String)) :=
  (csvReader input_file).foldlM
    (fun result row => do
      let repo ← match row[1]? with
        | some v => Except.ok v
        | none => Except.error PyErr.indexError
      let pkg ← match row[0]? with
        | some v => Except.ok v
        | none => Except.error PyErr.indexError
      pure (pyAddToSet result repo pkg))
    []

/-- One entry of the directory handed to `parse_package_details`: its name,
whether it is a regular file (`os.path.isfile`), and the outcome of
JSON-parsing its contents (`json.load` on the opened file). The order of the
list is the enumeration order of `glob.iglob`, which the code inherits. -/
structure DirEntry where
  name : String
  isFile : Bool
  content : Except String ParsedJSON

/-- Whether a character list starts with a dot. -/
def headIsDot (cs : List Char) : Bool :=
  match cs with
  | [] => false
  | c :: _ => c == '.'

/-- A name starting with a dot is hidden from the glob pattern `*`. -/
def isHidden (name : String) : Bool :=
  headIsDot name.data

/-- `glob.iglob(dir + "/*.json")` keeps a name iff it ends in `.json` and
does not start with a dot. -/
def matchesJsonGlob (name : String) : Bool :=
  ".json".data.isSuffixOf name.data && !isHidden name

/-- The entries `parse_package_details` visits: glob matches that are regular
files, in enumeration order. -/
def matchedFiles (dir : List DirEntry) : List DirEntry :=
  dir.filter (fun e => matchesJsonGlob e.name && e.isFile)

/-- Helper for `splitextStem`, working on the reversed character list: find
the first dot from the end; the stem (still reversed) is what follows it,
provided some character of the stem part is not a dot. -/
def splitextRevStem : List Char → Option (List Char)
  | [] => none
  | c :: rest =>
    if c = '.' then (if rest.any (fun c2 => c2 ≠ '.') then some rest else none)
    else splitextRevStem rest

/-- `os.path.splitext(name)[0]` for a plain file name: cut at the last dot,
unless all characters before that dot are dots (then the name has no
extension and is returned whole). -/
def splitextStem (s : String) : String :=
  match splitextRevStem s.data.reverse with
  | some revStem => String.mk revStem.reverse
  | none => s

/-- Full consumption of the generator body over a list of visited entries:
yield `(splitext(name)[0], json.load contents)` per entry, abort at the first
entry whose contents fail to parse. -/
def collectDetails : List DirEntry → Except String (List (String × ParsedJSON))
  | [] => .ok []
  | e :: rest =>
    match e.content with
    | .error msg => .error msg
    | .ok v =>
      match collectDetails rest with
      | .error msg => .error msg
      | .ok ps => .ok ((splitextStem e.name, v) :: ps)

/-- `parse_package_details`, fully consumed: the pairs for the glob-matched
regular files of the directory, or the first JSON error. -/
def parse_package_details (dir : List DirEntry) :
    Except String (List (String × ParsedJSON)) :=
  collectDetails (matchedFiles dir)

/-- Partial consumption: the result of `n` calls of `next()` on the
generator made from the visited entries. `0` steps run none of the body
(a generator does nothing at creation); a step beyond the last entry is the
normal `StopIteration` end; a step that reaches an entry with bad contents
raises its error. -/
def genSteps : List DirEntry → Nat → Except String (List (String × ParsedJSON))
  | _, 0 => .ok []
  | [], _ + 1 => .ok []
  | e :: rest, n + 1 =>
    match e.content with
    | .error msg => .error msg
    | .ok v =>
      match genSteps rest n with
      | .error msg => .error msg
      | .ok ps => .ok ((splitextStem e.name, v) :: ps)

/-- `parse_package_details` consumed for `n` iteration steps. -/
def parse_package_details_steps (dir : List DirEntry) (n : Nat) :
    Except String (List (String × ParsedJSON)) :=
  genSteps (matchedFiles dir) n

/-- Observable events of the generator: opening a file, yielding a pair,
closing a file, raising an error. -/
inductive Event where
  | openFile : String → Event
  | yieldPair : String → ParsedJSON → Event
  | closeFile : String → Event
  | raiseError : String → Event

/-- Event trace of running the generator to completion over the visited
entries. The `yield` statement sits inside the `with open(...)` block, so for
each good file the order is open, yield, close: the handle closes when
iteration resumes after the yield. A file whose contents fail to parse is
opened, closed by the `with` block's exit, and the error propagates, ending
the trace. -/
def detailsTrace : List DirEntry → List Event
  | [] => []
  | e :: rest =>
    match e.content with
    | .ok v =>
      .openFile e.name :: .yieldPair (splitextStem e.name) v ::
        .closeFile e.name :: detailsTrace rest
    | .error msg => [.openFile e.name, .closeFile e.name, .raiseError msg]

/-- Event trace of consuming `n` steps and then discarding the generator;
finalizing the discarded generator closes the file of the step it was
suspended in, so each consumed step still contributes its close event, and
entries never reached contribute nothing. -/
def detailsTraceN : List DirEntry → Nat → List Event
  | _, 0 => []
  | [], _ + 1 => []
  | e :: rest, n + 1 =>
    match e.content with
    | .ok v =>
      .openFile e.name :: .yieldPair (splitextStem e.name) v ::
        .closeFile e.name :: detailsTraceN rest n
    | .error msg => [.openFile e.name, .closeFile e.name, .raiseError msg]

/-- Event trace of `parse_package_details`, fully consumed. -/
def parse_package_details_trace (dir : List DirEntry) : List Event :=
  detailsTrace (matchedFiles dir)

/-- Event trace of `parse_package_details` consumed for `n` steps. -/
def parse_package_details_trace_upto (dir : List DirEntry) (n : Nat) : List Event :=
  detailsTraceN (matchedFiles dir) n

/-- The field value a `DictReader` row lookup produces when it succeeds. -/
def fieldValue (header row : List String) (name : String) : String :=
  ((getField header row name).toOption).getD ""

/-- The value of an entry's parsed contents when parsing succeeded. -/
def okValue : Except String ParsedJSON → ParsedJSON
  | .ok v => v
  | .error _ => .null

/-- Whether an event closes the file of the given name. -/
def isCloseOf (name : String) : Event → Bool
  | .closeFile n => n == name
  | _ => false

/-- Whether an event yields a pair for the given package name. -/
def isYieldOf (pkg : String) : Event → Bool
  | .yieldPair n _ => n == pkg
  | _ => false

/-! ### Lemmas about the dict and lookup primitives -/

theorem pyFind_pySet {β : Type} (d : List (String × β)) (k : String) (v : β)
    (x : String) :
    pyFind (pySet d k v) x = if k = x then some v else pyFind d x := by
  induction d with
  | nil => simp [pySet, pyFind]
  | cons e rest ih =>
    obtain ⟨k', v'⟩ := e
    by_cases hk : k' = k
    · subst hk
      simp only [pySet, if_pos rfl, pyFind]
      by_cases hx : k' = x <;> simp [hx]
    · simp only [pySet, if_neg hk, pyFind, ih]
      by_cases hx : k' = x
      · subst hx
        have hkx : ¬ k = k' := fun h => hk h.symm
        simp [hkx]
      · simp [hx]

theorem pyFind_pyAddToSet (d : List (String × Finset String)) (k x q : String) :
    pyFind (pyAddToSet d k x) q =
      if k = q then some (insert x ((pyFind d q).getD ∅)) else pyFind d q := by
  induction d with
  | nil =>
    simp only [pyAddToSet, pyFind]
    by_cases hq : k = q <;> simp [hq]
  | cons e rest ih =>
    obtain ⟨k', s⟩ := e
    by_cases hk : k' = k
    · subst hk
      simp only [pyAddToSet, if_pos rfl, pyFind]
      by_cases hq : k' = q <;> simp [hq]
    · simp only [pyAddToSet, if_neg hk, pyFind, ih]
      by_cases hq : k' = q
      · subst hq
        have hkq : ¬ k = k' := fun h => hk h.symm
        simp [hkq]
      · simp [hq]

theorem splitOnChar_ne_nil (sep : Char) (cs : List Char) :
    splitOnChar sep cs ≠ [] := by
  induction cs with
  | nil => simp [splitOnChar]
  | cons c rest ih =>
    simp only [splitOnChar, List.foldr_cons]
    rcases h : splitOnChar sep rest with _ | ⟨a, as⟩
    · exact absurd h ih
    · simp only [splitOnChar] at h
      rw [h]
      by_cases hc : c = sep <;> simp [hc]

theorem pySplit_ne_nil (s : String) : pySplit s ≠ [] := by
  simp only [pySplit, ne_eq, List.map_eq_nil_iff]
  exact splitOnChar_ne_nil ',' s.data

theorem lastIdxOf_eq_none_iff (l : List String) (a : String) :
    lastIdxOf l a = none ↔ a ∉ l := by
  induction l with
  | nil => simp [lastIdxOf]
  | cons x xs ih =>
    simp only [lastIdxOf, List.mem_cons]
    rcases h : lastIdxOf xs a with _ | i
    · have hxs : a ∉ xs := by rw [h] at ih; exact ih.mp rfl
      by_cases hx : x = a
      · simp [h, hx, hxs]
      · have hax : ¬ a = x := fun hax => hx hax.symm
        simp [h, hx, hax, hxs]
    · have hxs : a ∈ xs := by
        by_contra hmem
        have hnone := ih.mpr hmem
        rw [h] at hnone
        exact Option.some_ne_none i hnone
      simp [h, hxs]

theorem lastIdxOf_lt_length (l : List String) (a : String) (i : Nat)
    (h : lastIdxOf l a = some i) : i < l.length := by
  induction l generalizing i with
  | nil => simp [lastIdxOf] at h
  | cons x xs ih =>
    simp only [lastIdxOf] at h
    rcases h' : lastIdxOf xs a with _ | j
    · rw [h'] at h
      by_cases hx : x = a
      · simp [hx] at h
        simp [← h]
      · simp [hx] at h
    · rw [h'] at h
      simp only [Option.some.injEq] at h
      have := ih j h'
      simp [← h]
      omega

theorem getField_ok (header row : List String) (name : String)
    (hmem : name ∈ header) (hlen : header.length ≤ row.length) :
    getField header row name = .ok (fieldValue header row name) := by
  rcases h : lastIdxOf header name with _ | i
  · exact absurd hmem ((lastIdxOf_eq_none_iff header name).mp h)
  · have hi : i < row.length := lt_of_lt_of_le (lastIdxOf_lt_length header name i h) hlen
    have hr : row[i]? = some row[i] := List.getElem?_eq_getElem hi
    simp [getField, fieldValue, h, hr, Except.toOption]

theorem parse_rows_ok (header : List String) (rows : List (List String))
    (d : List (String × List String))
    (hpkg : "package" ∈ header) (hrep : "all_repos" ∈ header)
    (hlen : ∀ r ∈ rows, header.length ≤ r.length) :
    (rows.foldlM
      (fun d row => do
        let pkg ← getField header row "package"
        let repos ← getField header row "all_repos"
        pure (pySet d pkg (pySplit repos)))
      d : Except PyErr (List (String × List String)))
      = .ok (rows.foldl (fun d row =>
          pySet d (fieldValue header row "package")
            (pySplit (fieldValue header row "all_repos"))) d) := by
  induction rows generalizing d with
  | nil => rfl
  | cons r rs ih =>
    have h1 := getField_ok header r "package" hpkg (hlen r (List.mem_cons_self r rs))
    have h2 := getField_ok header r "all_repos" hrep (hlen r (List.mem_cons_self r rs))
    have hlen' : ∀ r ∈ rs, header.length ≤ r.length :=
      fun r hr => hlen r (List.mem_cons_of_mem _ hr)
    simp only [List.foldlM_cons, h1, h2, List.foldl_cons]
    simp only [Bind.bind, Except.bind, pure]
    exact ih _ hlen'

theorem pyFind_foldl_pySet {γ β : Type} (kf : γ → String) (vf : γ → β)
    (rows : List γ) (d : List (String × β)) (x : String) :
    pyFind (rows.foldl (fun d r => pySet d (kf r) (vf r)) d) x =
      (match rows.reverse.find? (fun r => kf r == x) with
       | some r => some (vf r)
       | none => pyFind d x) := by
  induction rows generalizing d with
  | nil => rfl
  | cons r rs ih =>
    simp only [List.foldl_cons, List.reverse_cons, ih, List.find?_append]
    rcases h : rs.reverse.find? (fun r => kf r == x) with _ | r'
    · simp only [Option.none_orElse]
      rw [pyFind_pySet]
      rcases hr : (kf r == x) with _ | _
      · have : ¬ kf r = x := by simpa using hr
        simp [List.find?, hr, this]
      · have : kf r = x := by simpa using hr
        simp [List.find?, hr, this]
    · simp

/-- C9: an input with at most a header line (even a header lacking the
required `package` or `all_repos` columns, or an empty input) produces the
empty mapping and raises no error, because the missing-column lookup can only
happen while a data row is processed. -/
theorem parse_package_to_repos_header_only (text : String)
    (h : (csvReader text).length ≤ 1) :
    parse_package_to_repos_file text = .ok [] := by
  rcases hcsv : csvReader text with _ | ⟨header, rows⟩
  · simp [parse_package_to_repos_file, hcsv]
  · rcases rows with _ | ⟨r, rs⟩
    · simp [parse_package_to_repos_file, hcsv]
      rfl
    · rw [hcsv] at h
      simp at h

theorem parse_package_to_repos_header_only_witness :
    (csvReader "foo,bar").length ≤ 1 ∧
      parse_package_to_repos_file "foo,bar" = .ok [] ∧
      parse_package_to_repos_file "" = .ok [] :=
  ⟨by decide,
   parse_package_to_repos_header_only "foo,bar" (by decide),
   parse_package_to_repos_header_only "" (by decide)⟩

/-- C2 counterexample: in the CSV text `package,all_repos\np1,r1,r2\np2,r2`
the `all_repos` field of the first data row is not quoted, so the CSV reader
splits `r1,r2` into two separate columns; `DictReader` binds `all_repos` to
`r1` only and puts `r2` under the rest key. The composed mapping therefore
sends `r2` to `{p2}`, while `parse_repo_to_package_file` on
`p1,r1\np1,r2\np2,r2` sends `r2` to `{p1, p2}`: the two code paths disagree
at key `r2`. -/
theorem roundtrip_unquoted_cex :
    (parse_package_to_repos_file "package,all_repos\np1,r1,r2\np2,r2").map
        invert_mapping = .ok [("r1", {"p1"}), ("r2", {"p2"})] ∧
    parse_repo_to_package_file "p1,r1\np1,r2\np2,r2" =
      .ok [("r1", {"p1"}), ("r2", {"p2", "p1"})] ∧
    ((parse_package_to_repos_file "package,all_repos\np1,r1,r2\np2,r2").map
        invert_mapping).toOption.bind (fun d => pyFind d "r2") = some {"p2"} ∧
    (parse_repo_to_package_file "p1,r1\np1,r2\np2,r2").toOption.bind
        (fun d => pyFind d "r2") = some {"p2", "p1"} ∧
    some ({"p2"} : Finset String) ≠ some ({"p2", "p1"} : Finset String) :=
  ⟨rfl, rfl, rfl, rfl, by decide⟩

/-- C2 (amended): with the `all_repos` field CSV-quoted, composing
`parse_package_to_repos_file` with `invert_mapping` on
`package,all_repos\np1,"r1,r2"\np2,r2` yields exactly the repo-to-packages
mapping `parse_repo_to_package_file` computes from `p1,r1\np1,r2\np2,r2`. -/
theorem roundtrip_quoted :
    (parse_package_to_repos_file "package,all_repos\np1,\"r1,r2\"\np2,r2").map
        invert_mapping = parse_repo_to_package_file "p1,r1\np1,r2\np2,r2" ∧
    parse_repo_to_package_file "p1,r1\np1,r2\np2,r2" =
      .ok [("r1", {"p1"}), ("r2", {"p2", "p1"})] :=
  ⟨rfl, rfl⟩

theorem parse_ok_foldl (text : String) (header : List String)
    (rows : List (List String))
    (hcsv : csvReader text = header :: rows)
    (hpkg : "package" ∈ header) (hrep : "all_repos" ∈ header)
    (hlen : ∀ r ∈ rows, header.length ≤ r.length) :
    parse_package_to_repos_file text =
      .ok (rows.foldl (fun d row =>
        pySet d (fieldValue header row "package")
          (pySplit (fieldValue header row "all_repos"))) []) := by
  have hne : header ≠ [] := List.ne_nil_of_mem hpkg
  have hfilter : rows.filter (fun r => r ≠ []) = rows := by
    rw [List.filter_eq_self]
    intro r hr
    have h2 := hlen r hr
    have h1 : 0 < header.length := List.length_pos.mpr hne
    simp only [ne_eq, decide_eq_true_eq]
    intro hre
    rw [hre] at h2
    simp only [List.length_nil, Nat.le_zero, List.length_eq_zero] at h2
    exact hne h2
  simp only [parse_package_to_repos_file, hcsv]
  rw [hfilter]
  exact parse_rows_ok header rows [] hpkg hrep hlen

/-- C5: with a header containing `package` and `all_repos` and data rows at
least as long as the header, each data row maps its `package` field to its
`all_repos` field split at commas (order kept, duplicates kept), and when
several rows share a package name the binding is the one of the last such
row (last write wins, no merging). -/
theorem parse_package_to_repos_last_write_wins (text : String)
    (header : List String) (rows : List (List String))
    (hcsv : csvReader text = header :: rows)
    (hpkg : "package" ∈ header) (hrep : "all_repos" ∈ header)
    (hlen : ∀ r ∈ rows, header.length ≤ r.length) :
    ∃ d, parse_package_to_repos_file text = .ok d ∧
      ∀ p : String, pyFind d p =
        (match rows.reverse.find? (fun r => fieldValue header r "package" == p) with
         | some r => some (pySplit (fieldValue header r "all_repos"))
         | none => none) := by
  refine ⟨_, parse_ok_foldl text header rows hcsv hpkg hrep hlen, ?_⟩
  intro p
  rw [pyFind_foldl_pySet (fun r => fieldValue header r "package")
    (fun r => pySplit (fieldValue header r "all_repos")) rows [] p]
  rcases h : rows.reverse.find? (fun r => fieldValue header r "package" == p)
      with _ | r <;> simp [pyFind]

theorem parse_package_to_repos_last_write_wins_witness :
    parse_package_to_repos_file "package,all_repos\np1,r1\np1,r2" =
      .ok [("p1", ["r2"])] ∧
    pyFind [("p1", (["r2"] : List String))] "p1" = some ["r2"] := by
  obtain ⟨d, hd, hp⟩ := parse_package_to_repos_last_write_wins
    "package,all_repos\np1,r1\np1,r2" ["package", "all_repos"]
    [["p1", "r1"], ["p1", "r2"]] rfl (by decide) (by decide) (by decide)
  have hd' : d = [("p1", ["r2"])] :=
    Except.ok.inj (hd.symm.trans (by rfl))
  refine ⟨by rw [hd, hd'], ?_⟩
  rw [← hd']
  rw [hp "p1"]
  rfl

/-- C7: a data row whose `all_repos` field is the empty string binds its
package to the one-element list containing the empty string, because
splitting the empty string at commas yields `[""]`, not `[]`. The row
considered is the last one for its package name. -/
theorem parse_package_to_repos_empty_field (text : String)
    (header : List String) (rows : List (List String)) (p : String)
    (r : List String)
    (hcsv : csvReader text = header :: rows)
    (hpkg : "package" ∈ header) (hrep : "all_repos" ∈ header)
    (hlen : ∀ row ∈ rows, header.length ≤ row.length)
    (hfind : rows.reverse.find? (fun row => fieldValue header row "package" == p)
      = some r)
    (hempty : fieldValue header r "all_repos" = "") :
    ∃ d, parse_package_to_repos_file text = .ok d ∧
      pyFind d p = some [""] := by
  refine ⟨_, parse_ok_foldl text header rows hcsv hpkg hrep hlen, ?_⟩
  rw [pyFind_foldl_pySet (fun row => fieldValue header row "package")
    (fun row => pySplit (fieldValue header row "all_repos")) rows [] p]
  rw [hfind]
  show some (pySplit (fieldValue header r "all_repos")) = some [""]
  rw [hempty]
  rfl

theorem parse_package_to_repos_empty_field_witness :
    parse_package_to_repos_file "package,all_repos\np1," = .ok [("p1", [""])] ∧
    pyFind [("p1", ([""] : List String))] "p1" = some [""] := by
  obtain ⟨d, hd, hp⟩ := parse_package_to_repos_empty_field
    "package,all_repos\np1," ["package", "all_repos"] [["p1", ""]] "p1"
    ["p1", ""] rfl (by decide) (by decide) (by decide) (by decide) rfl
  have hd' : d = [("p1", [""])] :=
    Except.ok.inj (hd.symm.trans (by rfl))
  refine ⟨by rw [hd, hd'], ?_⟩
  rw [← hd']
  exact hp

/-- The set of package names whose repository list contains `x`. -/
def pkgsWith (packages : List (String × List String)) (x : String) : Finset String :=
  ((packages.filter (fun e => x ∈ e.2)).map Prod.fst).toFinset

theorem pyFind_fold_addToSet (repos : List String) (p : String)
    (d : List (String × Finset String)) (x : String) :
    pyFind (repos.foldl (fun res r => pyAddToSet res r p) d) x =
      if x ∈ repos then some (insert p ((pyFind d x).getD ∅)) else pyFind d x := by
  induction repos generalizing d with
  | nil => simp
  | cons r rs ih =>
    simp only [List.foldl_cons]
    rw [ih (pyAddToSet d r p)]
    rw [pyFind_pyAddToSet]
    by_cases hr : r = x
    · subst hr
      by_cases hx : r ∈ rs <;>
        simp [hx, List.mem_cons, Finset.insert_idem]
    · have hxr : ¬ x = r := fun h => hr h.symm
      by_cases hx : x ∈ rs <;> simp [hr, hx, hxr, List.mem_cons]

theorem pkgsWith_cons (e : String × List String)
    (M : List (String × List String)) (x : String) :
    pkgsWith (e :: M) x =
      if x ∈ e.2 then insert e.1 (pkgsWith M x) else pkgsWith M x := by
  by_cases hx : x ∈ e.2 <;> simp [pkgsWith, List.filter_cons, hx]

theorem pyFind_invertFold (M : List (String × List String))
    (d : List (String × Finset String)) (x : String) :
    pyFind (M.foldl (fun result entry =>
        entry.2.foldl (fun result repo => pyAddToSet result repo entry.1) result) d) x =
      if pkgsWith M x = ∅ then pyFind d x
      else some (pkgsWith M x ∪ (pyFind d x).getD ∅) := by
  induction M generalizing d with
  | nil => simp [pkgsWith]
  | cons e M ih =>
    simp only [List.foldl_cons]
    rw [ih]
    rw [pyFind_fold_addToSet e.2 e.1 d x]
    rw [pkgsWith_cons]
    by_cases hx : x ∈ e.2
    · simp only [if_pos hx]
      by_cases hM : pkgsWith M x = ∅
      · rw [hM]
        simp [Finset.insert_ne_empty, Finset.insert_union, ← Finset.insert_eq]
      · simp [hM, Finset.insert_ne_empty, Finset.union_insert, Finset.insert_union]
    · simp only [if_neg hx]

/-- C4: `invert_mapping` maps each repository `x` present in some package's
list to exactly the set of packages whose list contains `x`; a repository in
no list is absent from the output; duplicates inside one package's list
collapse (set semantics); and the output lookup is unchanged when each
package's repository list is permuted. -/
theorem invert_mapping_spec :
    (∀ (packages : List (String × List String)) (x : String),
      pyFind (invert_mapping packages) x =
        if pkgsWith packages x = ∅ then none else some (pkgsWith packages x)) ∧
    (∀ (M M' : List (String × List String)),
      List.Forall₂ (fun e e' => e.1 = e'.1 ∧ e.2.Perm e'.2) M M' →
      ∀ x, pyFind (invert_mapping M) x = pyFind (invert_mapping M') x) := by
  have main : ∀ (packages : List (String × List String)) (x : String),
      pyFind (invert_mapping packages) x =
        if pkgsWith packages x = ∅ then none else some (pkgsWith packages x) := by
    intro packages x
    simp only [invert_mapping]
    rw [pyFind_invertFold]
    by_cases h : pkgsWith packages x = ∅ <;> simp [h, pyFind]
  refine ⟨main, ?_⟩
  intro M M' hMM' x
  rw [main, main]
  have hpk : pkgsWith M x = pkgsWith M' x := by
    induction hMM' with
    | nil => rfl
    | @cons a b l₁ l₂ he htail ihp =>
      rw [pkgsWith_cons, pkgsWith_cons, ihp, he.1]
      by_cases hx : x ∈ a.2
      · rw [if_pos hx, if_pos (he.2.mem_iff.mp hx)]
      · rw [if_neg hx, if_neg (fun h => hx (he.2.mem_iff.mpr h))]
  rw [hpk]

theorem invert_mapping_spec_witness :
    pyFind (invert_mapping [("p", ["r1", "r2", "r1"])]) "r1" = some {"p"} ∧
    pyFind (invert_mapping [("p", ["r1", "r2", "r1"])]) "q" = none ∧
    pyFind (invert_mapping [("p", ["r1", "r2"])]) "r1" =
      pyFind (invert_mapping [("p", ["r2", "r1"])]) "r1" := by
  obtain ⟨main, permPart⟩ := invert_mapping_spec
  refine ⟨?_, ?_, permPart [("p", ["r1", "r2"])] [("p", ["r2", "r1"])]
    (List.Forall₂.cons ⟨rfl, by decide⟩ List.Forall₂.nil) "r1"⟩
  · rw [main]
    decide
  · rw [main]
    decide

theorem repo_fold_err (rows : List (List String))
    (acc : List (String × Finset String))
    (h : ∃ r ∈ rows, r.length < 2) :
    (rows.foldlM
      (fun result row => do
        let repo ← match row[1]? with
          | some v => Except.ok v
          | none => Except.error PyErr.indexError
        let pkg ← match row[0]? with
          | some v => Except.ok v
          | none => Except.error PyErr.indexError
        pure (pyAddToSet result repo pkg))
      acc : Except PyErr (List (String × Finset String))) = .error .indexError := by
  induction rows generalizing acc with
  | nil => simp at h
  | cons r rs ih =>
    simp only [List.foldlM_cons]
    by_cases hlen : r.length < 2
    · have h1 : r[1]? = none := List.getElem?_eq_none (by omega)
      rcases h0 : r[0]? with _ | v
      · simp [h1, h0, Bind.bind, Except.bind]
      · simp [h1, h0, Bind.bind, Except.bind]
    · have h2 : 2 ≤ r.length := by omega
      have h1 : r[1]? = some r[1] := List.getElem?_eq_getElem (by omega)
      have h0 : r[0]? = some r[0] := List.getElem?_eq_getElem (by omega)
      have h' : ∃ r ∈ rs, r.length < 2 := by
        rcases h with ⟨r', hr', hlen'⟩
        rcases List.mem_cons.mp hr' with rfl | hmem
        · exact absurd hlen' hlen
        · exact ⟨r', hmem, hlen'⟩
      simp only [h1, h0, Bind.bind, Except.bind, pure]
      exact ih _ h'

theorem repo_fold_ok (rows : List (List String))
    (acc : List (String × Finset String))
    (h : ∀ r ∈ rows, 2 ≤ r.length) :
    (rows.foldlM
      (fun result row => do
        let repo ← match row[1]? with
          | some v => Except.ok v
          | none => Except.error PyErr.indexError
        let pkg ← match row[0]? with
          | some v => Except.ok v
          | none => Except.error PyErr.indexError
        pure (pyAddToSet result repo pkg))
      acc : Except PyErr (List (String × Finset String)))
      = .ok (rows.foldl
          (fun result row => pyAddToSet result (row.getD 1 "") (row.getD 0 "")) acc) := by
  induction rows generalizing acc with
  | nil => rfl
  | cons r rs ih =>
    have h2 := h r (List.mem_cons_self r rs)
    have h1 : r[1]? = some r[1] := List.getElem?_eq_getElem (by omega)
    have h0 : r[0]? = some r[0] := List.getElem?_eq_getElem (by omega)
    have hg1 : r.getD 1 "" = r[1] := by
      simp [List.getD, List.get?_eq_getElem?, h1]
    have hg0 : r.getD 0 "" = r[0] := by
      simp [List.getD, List.get?_eq_getElem?, h0]
    simp only [List.foldlM_cons, List.foldl_cons, h1, h0, Bind.bind, Except.bind, pure,
      hg1, hg0]
    exact ih _ (fun r hr => h r (List.mem_cons_of_mem _ hr))

/-- C8: `parse_repo_to_package_file` raises `IndexError` as soon as a row has
fewer than two fields (including the empty row a blank line produces), and on
inputs where every row has at least two fields it returns the dict built by
adding each row's column 0 (the package) to the set stored under its
column 1 (the repository), creating the entry on first sight. -/
theorem parse_repo_to_package_columns (text : String) :
    ((∃ r ∈ csvReader text, r.length < 2) →
      parse_repo_to_package_file text = .error .indexError) ∧
    ((∀ r ∈ csvReader text, 2 ≤ r.length) →
      parse_repo_to_package_file text =
        .ok ((csvReader text).foldl
          (fun result row => pyAddToSet result (row.getD 1 "") (row.getD 0 "")) [])) := by
  constructor
  · intro h
    exact repo_fold_err (csvReader text) [] h
  · intro h
    exact repo_fold_ok (csvReader text) [] h

theorem parse_repo_to_package_columns_witness :
    parse_repo_to_package_file "p1,r1\np2" = .error .indexError ∧
    parse_repo_to_package_file "pkgA,repoX\npkgB,repoX\npkgA,repoY" =
      .ok [("repoX", {"pkgB", "pkgA"}), ("repoY", {"pkgA"})] := by
  constructor
  · exact (parse_repo_to_package_columns "p1,r1\np2").1
      ⟨["p2"], by decide, by decide⟩
  · rw [(parse_repo_to_package_columns "pkgA,repoX\npkgB,repoX\npkgA,repoY").2
      (by decide)]
    rfl

theorem pySet_mem {β : Type} (d : List (String × β)) (k : String) (v : β) :
    ∀ e ∈ pySet d k v, e.2 = v ∨ e ∈ d := by
  induction d with
  | nil =>
    intro e he
    simp only [pySet, List.mem_singleton] at he
    subst he
    exact Or.inl rfl
  | cons e' rest ih =>
    intro e he
    obtain ⟨k', v'⟩ := e'
    by_cases hk : k' = k
    · simp only [pySet, if_pos hk, List.mem_cons] at he
      rcases he with rfl | he
      · exact Or.inl rfl
      · exact Or.inr (List.mem_cons_of_mem _ he)
    · simp only [pySet, if_neg hk, List.mem_cons] at he
      rcases he with rfl | he
      · exact Or.inr (List.mem_cons_self _ _)
      · rcases ih e he with h | h
        · exact Or.inl h
        · exact Or.inr (List.mem_cons_of_mem _ h)

theorem pyAddToSet_nonempty (d : List (String × Finset String))
    (hd : ∀ e ∈ d, e.2.Nonempty) (k x : String) :
    ∀ e ∈ pyAddToSet d k x, e.2.Nonempty := by
  induction d with
  | nil =>
    intro e he
    simp only [pyAddToSet, List.mem_singleton] at he
    subst he
    exact Finset.singleton_nonempty x
  | cons e' rest ih =>
    intro e he
    obtain ⟨k', s⟩ := e'
    by_cases hk : k' = k
    · simp only [pyAddToSet, if_pos hk, List.mem_cons] at he
      rcases he with rfl | he
      · exact Finset.insert_nonempty x s
      · exact hd e (List.mem_cons_of_mem _ he)
    · simp only [pyAddToSet, if_neg hk, List.mem_cons] at he
      rcases he with rfl | he
      · exact hd (k', s) (List.mem_cons_self _ _)
      · exact ih (fun e' he' => hd e' (List.mem_cons_of_mem _ he')) e he

theorem addToSet_inner_fold_nonempty (repos : List String) (p : String)
    (d : List (String × Finset String)) (hd : ∀ e ∈ d, e.2.Nonempty) :
    ∀ e ∈ repos.foldl (fun result repo => pyAddToSet result repo p) d,
      e.2.Nonempty := by
  induction repos generalizing d with
  | nil => exact hd
  | cons r rs ih =>
    simp only [List.foldl_cons]
    exact ih _ (pyAddToSet_nonempty d hd r p)

theorem parse1_fold_nonempty (header : List String) (rows : List (List String))
    (acc : List (String × List String))
    (hacc : ∀ e ∈ acc, e.2 ≠ ([] : List String))
    (d : List (String × List String))
    (hok : (rows.foldlM
      (fun d row => do
        let pkg ← getField header row "package"
        let repos ← getField header row "all_repos"
        pure (pySet d pkg (pySplit repos)))
      acc : Except PyErr (List (String × List String))) = .ok d) :
    ∀ e ∈ d, e.2 ≠ [] := by
  induction rows generalizing acc with
  | nil =>
    simp only [List.foldlM_nil] at hok
    cases hok
    exact hacc
  | cons r rs ih =>
    simp only [List.foldlM_cons] at hok
    rcases hp : getField header r "package" with msg | pkg
    · simp [hp, Bind.bind, Except.bind] at hok
    rcases ha : getField header r "all_repos" with msg | repos
    · simp [hp, ha, Bind.bind, Except.bind] at hok
    simp only [hp, ha, Bind.bind, Except.bind, pure] at hok
    refine ih _ ?_ hok
    intro e he
    rcases pySet_mem acc pkg (pySplit repos) e he with h | h
    · rw [h]
      exact pySplit_ne_nil repos
    · exact hacc e h

theorem parse2_fold_nonempty (rows : List (List String))
    (acc : List (String × Finset String))
    (hacc : ∀ e ∈ acc, e.2.Nonempty)
    (d : List (String × Finset String))
    (hok : (rows.foldlM
      (fun result row => do
        let repo ← match row[1]? with
          | some v => Except.ok v
          | none => Except.error PyErr.indexError
        let pkg ← match row[0]? with
          | some v => Except.ok v
          | none => Except.error PyErr.indexError
        pure (pyAddToSet result repo pkg))
      acc : Except PyErr (List (String × Finset String))) = .ok d) :
    ∀ e ∈ d, e.2.Nonempty := by
  induction rows generalizing acc with
  | nil =>
    simp only [List.foldlM_nil] at hok
    cases hok
    exact hacc
  | cons r rs ih =>
    simp only [List.foldlM_cons] at hok
    rcases h1 : r[1]? with _ | v1
    · simp [h1, Bind.bind, Except.bind] at hok
    rcases h0 : r[0]? with _ | v0
    · simp [h1, h0, Bind.bind, Except.bind] at hok
    simp only [h1, h0, Bind.bind, Except.bind, pure] at hok
    exact ih _ (pyAddToSet_nonempty acc hacc v1 v0) hok

/-- C10: every value collection in the outputs of the three mapping builders
is non-empty: `parse_package_to_repos_file` values are splits (at least one
piece), and `invert_mapping` and `parse_repo_to_package_file` only create an
entry at the moment an element is inserted into it. -/
theorem values_nonempty :
    (∀ (text : String) (d : List (String × List String)),
      parse_package_to_repos_file text = .ok d → ∀ e ∈ d, e.2 ≠ []) ∧
    (∀ (packages : List (String × List String)),
      ∀ e ∈ invert_mapping packages, e.2.Nonempty) ∧
    (∀ (text : String) (d : List (String × Finset String)),
      parse_repo_to_package_file text = .ok d → ∀ e ∈ d, e.2.Nonempty) := by
  refine ⟨?_, ?_, ?_⟩
  · intro text d h
    rcases hcsv : csvReader text with _ | ⟨header, rows⟩
    · simp only [parse_package_to_repos_file, hcsv] at h
      cases h
      simp
    · simp only [parse_package_to_repos_file, hcsv] at h
      exact parse1_fold_nonempty header _ [] (by simp) d h
  · intro packages
    have : ∀ d, (∀ e ∈ d, Finset.Nonempty e.2) →
        ∀ e ∈ packages.foldl (fun result entry =>
          entry.2.foldl (fun result repo => pyAddToSet result repo entry.1) result) d,
        e.2.Nonempty := by
      induction packages with
      | nil => intro d hd; exact hd
      | cons e' rest ih =>
        intro d hd
        simp only [List.foldl_cons]
        exact ih _ (addToSet_inner_fold_nonempty e'.2 e'.1 d hd)
    exact this [] (by simp)
  · intro text d h
    simp only [parse_repo_to_package_file] at h
    exact parse2_fold_nonempty (csvReader text) [] (by simp) d h

theorem values_nonempty_witness :
    (["r1"] : List String) ≠ [] ∧ ({"p1"} : Finset String).Nonempty ∧
      ({"p1"} : Finset String).Nonempty := by
  obtain ⟨h1, h2, h3⟩ := values_nonempty
  refine ⟨?_, ?_, ?_⟩
  · exact h1 "package,all_repos\np1,r1" [("p1", ["r1"])] rfl ("p1", ["r1"])
      (List.mem_singleton.mpr rfl)
  · exact h2 [("p1", ["r1"])] ("r1", {"p1"}) (List.mem_singleton.mpr rfl)
  · exact h3 "p1,r1" [("r1", {"p1"})] rfl ("r1", {"p1"})
      (List.mem_singleton.mpr rfl)

/-- The file name with its final `.json` stripped, as the spec words it. -/
def stripJsonSuffix (name : String) : String :=
  String.mk (name.data.take (name.data.length - 5))

/-- The spec's description of 4.2, amended with the hidden-file exclusion of
`glob`: keep regular files whose name ends in `.json` and does not start with
a dot, and emit (name minus `.json`, parsed contents). -/
def detailsSpec (dir : List DirEntry) : List (String × ParsedJSON) :=
  (dir.filter (fun e =>
      ".json".data.isSuffixOf e.name.data && !isHidden e.name && e.isFile)).map
    (fun e => (stripJsonSuffix e.name, okValue e.content))

theorem splitextRevStem_json_rev (rest : List Char)
    (hany : rest.any (fun c2 => c2 ≠ '.') = true) :
    splitextRevStem (['n', 'o', 's', 'j', '.'] ++ rest) = some rest := by
  rw [List.cons_append, splitextRevStem, if_neg (by decide : ¬ ('n' = '.'))]
  rw [List.cons_append, splitextRevStem, if_neg (by decide : ¬ ('o' = '.'))]
  rw [List.cons_append, splitextRevStem, if_neg (by decide : ¬ ('s' = '.'))]
  rw [List.cons_append, splitextRevStem, if_neg (by decide : ¬ ('j' = '.'))]
  rw [List.cons_append, List.nil_append, splitextRevStem, if_pos rfl, if_pos hany]

theorem splitextStem_json (name : String)
    (hsuf : ".json".data.isSuffixOf name.data = true)
    (hhid : isHidden name = false) :
    splitextStem name = stripJsonSuffix name := by
  have hs : ".json".data <:+ name.data := by
    have := List.isSuffixOf_iff_suffix.mp hsuf
    exact this
  obtain ⟨pre, hpre⟩ := hs
  unfold isHidden at hhid
  rw [← hpre] at hhid
  rcases pre with _ | ⟨h, pre'⟩
  · rw [List.nil_append] at hhid
    exact absurd hhid (by decide)
  · have hh : ¬ h = '.' := by
      rw [List.cons_append] at hhid
      simpa [headIsDot] using hhid
    have hany : ((h :: pre').reverse).any (fun c2 => c2 ≠ '.') = true :=
      List.any_eq_true.mpr
        ⟨h, List.mem_reverse.mpr (List.mem_cons_self h pre'), by simp [hh]⟩
    unfold splitextStem stripJsonSuffix
    rw [← hpre]
    have hjrev : ".json".data.reverse = ['n', 'o', 's', 'j', '.'] := rfl
    rw [List.reverse_append, hjrev, splitextRevStem_json_rev _ hany]
    show String.mk ((h :: pre').reverse.reverse) = _
    rw [List.reverse_reverse]
    have hlen5 : ".json".data.length = 5 := rfl
    rw [List.length_append, hlen5, Nat.add_sub_cancel, List.take_left]

/-- C3 counterexample: the file `.hidden.json` is a regular file whose name
ends in `.json`, yet `parse_package_details` emits nothing for the directory
containing only it: the glob pattern `*.json` does not match names starting
with a dot. -/
theorem hidden_json_skipped_cex :
    ".json".data.isSuffixOf ".hidden.json".data = true ∧
    (DirEntry.mk ".hidden.json" true (Except.ok (ParsedJSON.obj []))).isFile = true ∧
    parse_package_details
      [DirEntry.mk ".hidden.json" true (Except.ok (ParsedJSON.obj []))] = .ok [] :=
  ⟨by decide, rfl, rfl⟩

theorem collectDetails_allOk (l : List DirEntry)
    (h : ∀ e ∈ l, ∃ v, e.content = Except.ok v) :
    collectDetails l =
      .ok (l.map (fun e => (splitextStem e.name, okValue e.content))) := by
  induction l with
  | nil => rfl
  | cons e rest ih =>
    obtain ⟨v, hv⟩ := h e (List.mem_cons_self e rest)
    have hrest := ih (fun e' he' => h e' (List.mem_cons_of_mem _ he'))
    simp [collectDetails, hv, hrest, okValue]

/-- C3 (amended): `parse_package_details` enumerates exactly the regular
files whose name ends in `.json` and does not start with a dot (the glob
pattern `*` skips hidden names), and emits for each the pair of the name
with the `.json` suffix stripped and the parse of its contents. -/
theorem parse_package_details_spec_nonhidden (dir : List DirEntry)
    (h : ∀ e ∈ matchedFiles dir, ∃ v, e.content = Except.ok v) :
    parse_package_details dir = .ok (detailsSpec dir) := by
  have hfeq : matchedFiles dir = dir.filter (fun e =>
      ".json".data.isSuffixOf e.name.data && !isHidden e.name && e.isFile) := rfl
  unfold parse_package_details detailsSpec
  rw [collectDetails_allOk (matchedFiles dir) h, ← hfeq]
  congr 1
  refine List.map_congr_left ?_
  intro e he
  rw [hfeq] at he
  obtain ⟨_, hpred⟩ := List.mem_filter.mp he
  simp only [Bool.and_eq_true, Bool.not_eq_true'] at hpred
  rw [splitextStem_json e.name hpred.1.1 hpred.1.2]

theorem parse_package_details_spec_nonhidden_witness :
    parse_package_details
      [DirEntry.mk "a.json" true (Except.ok (ParsedJSON.obj [("x", ParsedJSON.int 1)])),
       DirEntry.mk "b.json" true
         (Except.ok (ParsedJSON.arr [ParsedJSON.int 1, ParsedJSON.int 2, ParsedJSON.int 3])),
       DirEntry.mk "notes.txt" true (Except.error "Expecting value"),
       DirEntry.mk "sub.json" false (Except.error "IsADirectoryError")] =
      .ok [("a", ParsedJSON.obj [("x", ParsedJSON.int 1)]),
           ("b", ParsedJSON.arr [ParsedJSON.int 1, ParsedJSON.int 2, ParsedJSON.int 3])] := by
  rw [parse_package_details_spec_nonhidden _ ?hok]
  · rfl
  case hok =>
    intro e he
    have hm : matchedFiles
        [DirEntry.mk "a.json" true (Except.ok (ParsedJSON.obj [("x", ParsedJSON.int 1)])),
         DirEntry.mk "b.json" true
           (Except.ok (ParsedJSON.arr [ParsedJSON.int 1, ParsedJSON.int 2, ParsedJSON.int 3])),
         DirEntry.mk "notes.txt" true (Except.error "Expecting value"),
         DirEntry.mk "sub.json" false (Except.error "IsADirectoryError")] =
        [DirEntry.mk "a.json" true (Except.ok (ParsedJSON.obj [("x", ParsedJSON.int 1)])),
         DirEntry.mk "b.json" true
           (Except.ok (ParsedJSON.arr [ParsedJSON.int 1, ParsedJSON.int 2, ParsedJSON.int 3]))] := rfl
    rw [hm] at he
    simp only [List.mem_cons, List.not_mem_nil, or_false] at he
    rcases he with rfl | rfl
    · exact ⟨_, rfl⟩
    · exact ⟨_, rfl⟩

theorem detailsTrace_allOk (l : List DirEntry)
    (h : ∀ e ∈ l, ∃ v, e.content = Except.ok v) :
    detailsTrace l = l.flatMap (fun e =>
      [Event.openFile e.name,
       Event.yieldPair (splitextStem e.name) (okValue e.content),
       Event.closeFile e.name]) := by
  induction l with
  | nil => rfl
  | cons e rest ih =>
    obtain ⟨v, hv⟩ := h e (List.mem_cons_self e rest)
    have hrest := ih (fun e' he' => h e' (List.mem_cons_of_mem _ he'))
    simp [detailsTrace, hv, hrest, okValue]

theorem detailsTraceN_eq_take (l : List DirEntry) (n : Nat) :
    detailsTraceN l n = detailsTrace (l.take n) := by
  induction l generalizing n with
  | nil => cases n <;> rfl
  | cons e rest ih =>
    cases n with
    | zero => rfl
    | succ k =>
      rw [List.take_succ_cons]
      rcases hv : e.content with msg | v <;>
        simp [detailsTraceN, detailsTrace, hv, ih]

/-- C1 counterexample: for a directory with the single well-formed file
`a.json`, the generator's event trace is open, yield, close — the close event
comes after the yield, not before it, because the `yield` statement sits
inside the `with open(...)` block. The claim that each file is closed before
its pair is produced is false at this input. -/
theorem parse_package_details_close_after_yield_cex :
    parse_package_details_trace
        [DirEntry.mk "a.json" true (Except.ok (ParsedJSON.int 1))] =
      [Event.openFile "a.json", Event.yieldPair "a" (ParsedJSON.int 1),
       Event.closeFile "a.json"] ∧
    ¬ ((parse_package_details_trace
          [DirEntry.mk "a.json" true (Except.ok (ParsedJSON.int 1))]).findIdx
            (isCloseOf "a.json") <
        (parse_package_details_trace
          [DirEntry.mk "a.json" true (Except.ok (ParsedJSON.int 1))]).findIdx
            (isYieldOf "a")) :=
  ⟨rfl, by decide⟩

/-- C1 (amended): every matched well-formed file is opened exactly once and
contributes exactly the event block open, yield, close — its pair is yielded
while the file is still open, and the handle is closed when iteration
resumes after the yield; and consuming only `n` steps produces exactly the
blocks of the first `n` matched files, so handles of files not yet visited
are never opened when the consumer stops early. -/
theorem parse_package_details_trace_blocks (dir : List DirEntry)
    (h : ∀ e ∈ matchedFiles dir, ∃ v, e.content = Except.ok v) :
    parse_package_details_trace dir =
      (matchedFiles dir).flatMap (fun e =>
        [Event.openFile e.name,
         Event.yieldPair (splitextStem e.name) (okValue e.content),
         Event.closeFile e.name]) ∧
    ∀ n, parse_package_details_trace_upto dir n =
      ((matchedFiles dir).take n).flatMap (fun e =>
        [Event.openFile e.name,
         Event.yieldPair (splitextStem e.name) (okValue e.content),
         Event.closeFile e.name]) := by
  constructor
  · exact detailsTrace_allOk (matchedFiles dir) h
  · intro n
    unfold parse_package_details_trace_upto
    rw [detailsTraceN_eq_take]
    exact detailsTrace_allOk ((matchedFiles dir).take n)
      (fun e he => h e (List.mem_of_mem_take he))

theorem parse_package_details_trace_blocks_witness :
    parse_package_details_trace
        [DirEntry.mk "b.json" true (Except.ok (ParsedJSON.int 2))] =
      [Event.openFile "b.json", Event.yieldPair "b" (ParsedJSON.int 2),
       Event.closeFile "b.json"] ∧
    parse_package_details_trace_upto
        [DirEntry.mk "b.json" true (Except.ok (ParsedJSON.int 2))] 0 = [] := by
  obtain ⟨h1, h2⟩ := parse_package_details_trace_blocks
    [DirEntry.mk "b.json" true (Except.ok (ParsedJSON.int 2))]
    (by
      intro e he
      have hm : matchedFiles [DirEntry.mk "b.json" true (Except.ok (ParsedJSON.int 2))] =
          [DirEntry.mk "b.json" true (Except.ok (ParsedJSON.int 2))] := rfl
      rw [hm] at he
      simp only [List.mem_singleton] at he
      subst he
      exact ⟨_, rfl⟩)
  constructor
  · rw [h1]
    rfl
  · rw [h2 0]
    rfl

theorem genSteps_zero (l : List DirEntry) : genSteps l 0 = .ok [] := by
  cases l <;> rfl

theorem genSteps_ok_below (pre : List DirEntry) (bad : DirEntry)
    (post : List DirEntry)
    (hpre : ∀ e ∈ pre, ∃ v, e.content = Except.ok v)
    (j : Nat) (hj : j ≤ pre.length) :
    genSteps (pre ++ bad :: post) j =
      .ok ((pre.take j).map (fun e => (splitextStem e.name, okValue e.content))) := by
  induction pre generalizing j with
  | nil =>
    have : j = 0 := Nat.le_zero.mp hj
    subst this
    exact genSteps_zero _
  | cons e pre' ih =>
    cases j with
    | zero => exact genSteps_zero _
    | succ k =>
      obtain ⟨v, hv⟩ := hpre e (List.mem_cons_self e pre')
      have hk : k ≤ pre'.length := Nat.le_of_succ_le_succ hj
      have hrec := ih (fun e' he' => hpre e' (List.mem_cons_of_mem _ he')) k hk
      rw [List.cons_append]
      simp [genSteps, hv, hrec, okValue]

theorem genSteps_past_error (pre : List DirEntry) (bad : DirEntry)
    (post : List DirEntry) (msg : String)
    (hpre : ∀ e ∈ pre, ∃ v, e.content = Except.ok v)
    (hbad : bad.content = Except.error msg)
    (n : Nat) (hn : pre.length < n) :
    genSteps (pre ++ bad :: post) n = .error msg := by
  induction pre generalizing n with
  | nil =>
    cases n with
    | zero => exact absurd hn (by simp)
    | succ k => simp [genSteps, hbad]
  | cons e pre' ih =>
    cases n with
    | zero => exact absurd hn (by simp)
    | succ k =>
      obtain ⟨v, hv⟩ := hpre e (List.mem_cons_self e pre')
      have hk : pre'.length < k := Nat.lt_of_succ_lt_succ hn
      have hrec := ih (fun e' he' => hpre e' (List.mem_cons_of_mem _ he')) k hk
      rw [List.cons_append]
      simp [genSteps, hv, hrec]

/-- C6: when the matched files are some well-formed ones followed by a file
whose contents fail to parse, creating the generator (consuming 0 steps)
raises nothing, consuming up to the number of well-formed files yields
exactly their pairs, and any consumption step that reaches the bad file
raises its parse error; nothing is caught and no pair is produced past the
failure. -/
theorem parse_package_details_lazy_errors (dir : List DirEntry)
    (pre : List DirEntry) (bad : DirEntry) (post : List DirEntry) (msg : String)
    (hsplit : matchedFiles dir = pre ++ bad :: post)
    (hpre : ∀ e ∈ pre, ∃ v, e.content = Except.ok v)
    (hbad : bad.content = Except.error msg) :
    parse_package_details_steps dir 0 = .ok [] ∧
    (∀ j, j ≤ pre.length → parse_package_details_steps dir j =
      .ok ((pre.take j).map (fun e => (splitextStem e.name, okValue e.content)))) ∧
    (∀ n, pre.length < n → parse_package_details_steps dir n = .error msg) := by
  refine ⟨?_, ?_, ?_⟩
  · unfold parse_package_details_steps
    exact genSteps_zero _
  · intro j hj
    unfold parse_package_details_steps
    rw [hsplit]
    exact genSteps_ok_below pre bad post hpre j hj
  · intro n hn
    unfold parse_package_details_steps
    rw [hsplit]
    exact genSteps_past_error pre bad post msg hpre hbad n hn

theorem parse_package_details_lazy_errors_witness :
    parse_package_details_steps
        [DirEntry.mk "a.json" true (Except.ok (ParsedJSON.int 1)),
         DirEntry.mk "bad.json" true (Except.error "Expecting value"),
         DirEntry.mk "c.json" true (Except.ok (ParsedJSON.int 3))] 1 =
      .ok [("a", ParsedJSON.int 1)] ∧
    parse_package_details_steps
        [DirEntry.mk "a.json" true (Except.ok (ParsedJSON.int 1)),
         DirEntry.mk "bad.json" true (Except.error "Expecting value"),
         DirEntry.mk "c.json" true (Except.ok (ParsedJSON.int 3))] 2 =
      .error "Expecting value" ∧
    parse_package_details_steps
        [DirEntry.mk "a.json" true (Except.ok (ParsedJSON.int 1)),
         DirEntry.mk "bad.json" true (Except.error "Expecting value"),
         DirEntry.mk "c.json" true (Except.ok (ParsedJSON.int 3))] 3 =
      .error "Expecting value" := by
  obtain ⟨h0, hok, herr⟩ := parse_package_details_lazy_errors
    [DirEntry.mk "a.json" true (Except.ok (ParsedJSON.int 1)),
     DirEntry.mk "bad.json" true (Except.error "Expecting value"),
     DirEntry.mk "c.json" true (Except.ok (ParsedJSON.int 3))]
    [DirEntry.mk "a.json" true (Except.ok (ParsedJSON.int 1))]
    (DirEntry.mk "bad.json" true (Except.error "Expecting value"))
    [DirEntry.mk "c.json" true (Except.ok (ParsedJSON.int 3))]
    "Expecting value" rfl
    (by
      intro e he
      simp only [List.mem_singleton] at he
      subst he
      exact ⟨_, rfl⟩)
    rfl
  refine ⟨?_, herr 2 (by decide), herr 3 (by decide)⟩
  rw [hok 1 (by decide)]
  rfl

end ParseUtil
